import Mathlib

/-!
Shallow embedding of the catalog search engine (`app/similarity.py`,
`app/facets.py`): JSON-like song records, facet filtering, and the
filter-then-rank semantic search.  Python machine floats are modelled by
rationals; numpy's `argsort` is modelled as a stable ascending sort on
indices (numpy falls back to a stable insertion sort on the small arrays
used in every concrete evaluation below).
-/

/-- A JSON value as it appears in a song record field: `null`, a string,
or a list of strings (the shapes the data model of the repository uses
for song attributes). -/
inductive JVal where
  | jnull
  | jstr (s : String)
  | jlist (xs : List String)
deriving DecidableEq, Repr

/-- A song record: a Python dict, modelled as an association list with
insertion order. -/
abbrev Song := List (String × JVal)

/-- Python `s.get(key)`: `None` when the key is absent (note a key that is
present with JSON `null` also yields Python `None`; `_as_list` treats
`none` and `some .jnull` alike, matching that). -/
def jGet (s : Song) (k : String) : Option JVal :=
  (s.find? (fun p => p.1 == k)).map Prod.snd

/-- Python `str.strip()`: drop leading and trailing whitespace.  Written
structurally over the character list so that concrete evaluations reduce
inside the kernel. -/
def pyStrip (s : String) : String :=
  ⟨((s.data.dropWhile Char.isWhitespace).reverse.dropWhile Char.isWhitespace).reverse⟩

/-- `_as_list` from `app/similarity.py` (and `app/facets.py`, which agrees
with it on `None`/`str`/`list` inputs): normalize a field to a list of
trimmed, non-empty strings. -/
def _as_list : Option JVal → List String
  | none => []
  | some .jnull => []
  | some (.jstr s) => if pyStrip s = "" then [] else [pyStrip s]
  | some (.jlist xs) => (xs.map pyStrip).filter (fun t => t ≠ "")

/-- `_matches_multi_select` from `app/similarity.py`: OR within a facet;
an empty selection is no constraint.  Python tests that the set
intersection of the song's tags with the trimmed non-empty selections is
non-empty; we test the equivalent existence of a shared element. -/
def _matches_multi_select (song_val : Option JVal) (selected : List String) : Bool :=
  if selected.isEmpty then true
  else
    let song_tags := _as_list song_val
    let selected_trimmed := (selected.map pyStrip).filter (fun t => t ≠ "")
    song_tags.any (fun t => selected_trimmed.contains t)

/-- `_matches_single` from `app/similarity.py`: the single-select energy
facet.  `None` or `""` is no constraint; otherwise Python tests
`selected in song_tags` (case-sensitive, `selected` not trimmed). -/
def _matches_single (song_val : Option JVal) (selected : Option String) : Bool :=
  match selected with
  | none => true
  | some sel => if sel = "" then true else (_as_list song_val).contains sel

/-- The filter specification passed to `filter_song_indices`: the four
facet selections read out of the `filters` dict (`filters.get(..., []) or []`
for the multi facets, `filters.get("energy", None)` for energy). -/
structure Filters where
  mood : List String := []
  activity : List String := []
  genre : List String := []
  energy : Option String := none
deriving DecidableEq, Repr

/-- The per-song test of the loop body of `filter_song_indices`:
AND across facets. -/
def keepSong (f : Filters) (s : Song) : Bool :=
  _matches_multi_select (jGet s "mood") f.mood &&
  _matches_multi_select (jGet s "activity") f.activity &&
  _matches_multi_select (jGet s "genre") f.genre &&
  _matches_single (jGet s "energy") f.energy

/-- `filter_song_indices` from `app/similarity.py`: `None` (or an empty
dict, both falsy) returns every index; otherwise the loop
`for i, s in enumerate(songs)` appends `i` whenever every facet matches. -/
def filter_song_indices (songs : List Song) (filters : Option Filters) : List Nat :=
  match filters with
  | none => List.range songs.length
  | some f => (List.range songs.length).filter (fun i => keepSong f (songs.getD i []))

/-- `_ensure_top_k` from `app/similarity.py`. -/
def _ensure_top_k (top_k : Int) (n_items : Nat) : Int :=
  if top_k ≤ 0 then 5 else min top_k (n_items : Int)

/-- Python `str(value)` for the JSON values we model (Python renders a
string list as a bracketed, quoted, comma-separated sequence). -/
def pyStr : JVal → String
  | .jnull => "None"
  | .jstr s => s
  | .jlist xs => "[" ++ String.intercalate ", " (xs.map (fun x => "\x27" ++ x ++ "\x27")) ++ "]"

/-- `_matches_any` from `app/facets.py`: OR within a facet, raw
(untrimmed) selections. -/
def _matches_any (song_values : List String) (selected : List String) : Bool :=
  if selected.isEmpty then true
  else selected.any (fun x => song_values.contains x)

/-- `filter_songs` from `app/facets.py`: filters song records directly;
energy is compared by trimmed scalar equality
(`str(s.get("energy", "")).strip() != energy`). -/
def filter_songs (songs : List Song) (mood activity : Option (List String))
    (energy : Option String) (genre : Option (List String)) : List Song :=
  let mood := mood.getD []
  let activity := activity.getD []
  let genre := genre.getD []
  let energyT := pyStrip (energy.getD "")
  songs.filter (fun s =>
    _matches_any (_as_list (jGet s "mood")) mood &&
    _matches_any (_as_list (jGet s "activity")) activity &&
    _matches_any (_as_list (jGet s "genre")) genre &&
    (energyT == "" || pyStrip (match jGet s "energy" with | none => "" | some v => pyStr v) == energyT))

/-- Dot product of two score vectors (`subset_vecs @ query_vec`, one row). -/
def dot (v w : List ℚ) : ℚ := ((v.zip w).map (fun p => p.1 * p.2)).foldl (· + ·) 0

/-- The order `np.argsort` sorts positions by: ascending score, with ties
kept in ascending position order (stability). -/
def argsortLe (scores : List ℚ) (i j : Nat) : Prop :=
  scores.getD i 0 < scores.getD j 0 ∨ (scores.getD i 0 = scores.getD j 0 ∧ i ≤ j)

instance (scores : List ℚ) : DecidableRel (argsortLe scores) := fun i j => by
  unfold argsortLe; exact inferInstance

instance (scores : List ℚ) : IsTotal Nat (argsortLe scores) where
  total i j := by
    rcases lt_trichotomy (scores.getD i 0) (scores.getD j 0) with h | h | h
    · exact Or.inl (Or.inl h)
    · rcases Nat.le_total i j with hij | hij
      · exact Or.inl (Or.inr ⟨h, hij⟩)
      · exact Or.inr (Or.inr ⟨h.symm, hij⟩)
    · exact Or.inr (Or.inl h)

instance (scores : List ℚ) : IsTrans Nat (argsortLe scores) where
  trans i j k hij hjk := by
    rcases hij with h1 | ⟨e1, l1⟩ <;> rcases hjk with h2 | ⟨e2, l2⟩
    · exact Or.inl (h1.trans h2)
    · exact Or.inl (e2 ▸ h1)
    · exact Or.inl (e1 ▸ h2)
    · exact Or.inr ⟨e1.trans e2, l1.trans l2⟩

/-- `np.argsort(scores)`: the positions `0..n-1` stably sorted by
ascending score. -/
def argsort (scores : List ℚ) : List Nat :=
  List.insertionSort (argsortLe scores) (List.range scores.length)

/-- Lines 170–187 of `app/similarity.py` (the spec's Ranker): clamp `k`,
score the candidate rows, take the top `k` positions of the reversed
ascending argsort, and pair each surviving candidate's original corpus
index with its score. -/
def rankCandidates (vectors : List (List ℚ)) (query_vec : List ℚ)
    (keep_idx : List Nat) (top_k : Int) : List (Nat × ℚ) :=
  let t := _ensure_top_k top_k keep_idx.length
  let subset_scores := keep_idx.map (fun i => dot (vectors.getD i []) query_vec)
  ((argsort subset_scores).reverse.take t.toNat).map
    (fun j => (keep_idx.getD j 0, subset_scores.getD j 0))

/-- A value in a result record: either an attribute copied from the song
dict or the computed similarity score. -/
inductive RVal where
  | attr (v : JVal)
  | num (q : ℚ)
deriving DecidableEq, Repr

/-- A result record (a Python dict). -/
abbrev ResultRec := List (String × RVal)

/-- Python dict insertion: an existing key keeps its position and gets the
new value, a new key is appended. -/
def dictInsert (d : ResultRec) (k : String) (v : RVal) : ResultRec :=
  if d.any (fun p => p.1 == k) then d.map (fun p => if p.1 == k then (k, v) else p)
  else d ++ [(k, v)]

/-- Python `dict.get` on a result record. -/
def rGet (d : ResultRec) (k : String) : Option RVal :=
  (d.find? (fun p => p.1 == k)).map Prod.snd

/-- The result-record construction of lines 188–193 of
`app/similarity.py`: `{"score": score, **songs[song_i]}` — start from the
score entry, then merge in every attribute of the song, attributes
overriding. -/
def mkResult (score : ℚ) (attrs : Song) : ResultRec :=
  attrs.foldl (fun d p => dictInsert d p.1 (.attr p.2)) [("score", .num score)]

/-- Injection of a song record returned unchanged (tag-only mode returns
`songs[i]` itself; its values are song attributes). -/
def songRec (s : Song) : ResultRec := s.map (fun p => (p.1, RVal.attr p.2))

/-- `semantic_search` from `app/similarity.py`, with the loaded data and
the embedding model as parameters: filter first, short-circuit on an
empty candidate set, browse without scores when the query is empty,
otherwise check item/vector consistency and rank the candidates. -/
def semantic_search (songs : List Song) (vectors : List (List ℚ))
    (embed : String → List ℚ) (query : Option String) (top_k : Int)
    (filters : Option Filters) : Except String (List ResultRec) :=
  let keep_idx := filter_song_indices songs filters
  if keep_idx.length = 0 then .ok []
  else
    let query_str := pyStrip (query.getD "")
    if query_str = "" then
      let t := _ensure_top_k top_k keep_idx.length
      .ok ((keep_idx.take t.toNat).map (fun i => songRec (songs.getD i [])))
    else if songs.length ≠ vectors.length then
      .error ("Mismatch: songs.json has " ++ toString songs.length ++
        " songs but song_vectors has " ++ toString vectors.length ++
        " vectors. Re-run embeddings.py after editing songs.json.")
    else
      let query_vec := embed query_str
      .ok ((rankCandidates vectors query_vec keep_idx top_k).map
        (fun p => mkResult p.2 (songs.getD p.1 [])))

/-! ### Basic facts about the Filter Engine -/

theorem keepSong_unconstrained (s : Song) : keepSong {} s = true := rfl

theorem mem_filter_song_indices {songs : List Song} {f : Filters} {i : Nat} :
    i ∈ filter_song_indices songs (some f) ↔
      i < songs.length ∧ keepSong f (songs.getD i []) = true := by
  simp [filter_song_indices, List.mem_filter, List.mem_range]

theorem filter_song_indices_of_all {songs : List Song} {f : Filters}
    (h : ∀ s ∈ songs, keepSong f s = true) :
    filter_song_indices songs (some f) = List.range songs.length := by
  unfold filter_song_indices
  refine List.filter_eq_self.mpr ?_
  intro i hi
  rw [List.mem_range] at hi
  rw [List.getD_eq_getElem _ _ hi]
  exact h _ (List.getElem_mem hi)

theorem map_getD_filter_range {α : Type} (d : α) (p : α → Bool) :
    ∀ l : List α,
      ((List.range l.length).filter (fun i => p (l.getD i d))).map (fun i => l.getD i d) =
        l.filter p
  | [] => rfl
  | a :: l => by
    have ih := map_getD_filter_range d p l
    have h0 : (a :: l).getD 0 d = a := rfl
    have h2 : ((fun i => p ((a :: l).getD i d)) ∘ Nat.succ) = fun i => p (l.getD i d) := by
      funext i; rfl
    have h3 : ((fun i => (a :: l).getD i d) ∘ Nat.succ) = fun i => l.getD i d := by
      funext i; rfl
    rw [List.length_cons, List.range_succ_eq_map, List.filter_cons, List.filter_cons, h0]
    by_cases hp : p a
    · rw [if_pos hp, if_pos hp, List.map_cons, h0, List.filter_map, List.map_map, h2, h3, ih]
    · rw [if_neg hp, if_neg hp, List.filter_map, List.map_map, h2, h3, ih]

/-- C7: `filter_song_indices` returns a strictly ascending list of
original indices; re-applying the same spec to the list of surviving
songs keeps every one of them; and an absent spec or a spec with no
constraints keeps all items in original order. -/
theorem filter_song_indices_contract :
    (∀ (songs : List Song) (filters : Option Filters),
      List.Pairwise (· < ·) (filter_song_indices songs filters)) ∧
    (∀ (songs : List Song) (filters : Option Filters),
      filter_song_indices
          ((filter_song_indices songs filters).map (fun i => songs.getD i [])) filters =
        List.range (filter_song_indices songs filters).length) ∧
    (∀ songs : List Song, filter_song_indices songs none = List.range songs.length) ∧
    (∀ songs : List Song, filter_song_indices songs (some {}) = List.range songs.length) := by
  refine ⟨?_, ?_, ?_, ?_⟩
  · intro songs filters
    match filters with
    | none => exact List.pairwise_lt_range _
    | some f => exact (List.pairwise_lt_range _).sublist (List.filter_sublist _)
  · intro songs filters
    match filters with
    | none => simp [filter_song_indices]
    | some f =>
      have hall : ∀ s ∈ (filter_song_indices songs (some f)).map (fun i => songs.getD i []),
          keepSong f s = true := by
        intro s hs
        rcases List.mem_map.mp hs with ⟨i, hi, rfl⟩
        exact (mem_filter_song_indices.mp hi).2
      rw [filter_song_indices_of_all hall, List.length_map]
  · intro songs; rfl
  · intro songs
    exact filter_song_indices_of_all (fun s _ => keepSong_unconstrained s)

theorem matches_multi_nil (v : Option JVal) : _matches_multi_select v [] = true := rfl

theorem matches_single_none (v : Option JVal) : _matches_single v none = true := rfl

theorem keepSong_mood_genre (M G : List String) (s : Song) :
    keepSong { mood := M, genre := G } s =
      (keepSong { mood := M } s && keepSong { genre := G } s) := by
  simp only [keepSong, matches_multi_nil, matches_single_none, Bool.and_true,
    Bool.true_and]

/-- C8: filtering by mood alone and genre alone and intersecting the
resulting index sets gives exactly the index set of filtering by both
facets in one spec (constraints are ANDed across facets). -/
theorem facet_and_intersection (songs : List Song) (M G : List String) (i : Nat) :
    (i ∈ filter_song_indices songs (some { mood := M }) ∧
     i ∈ filter_song_indices songs (some { genre := G })) ↔
    i ∈ filter_song_indices songs (some { mood := M, genre := G }) := by
  constructor
  · rintro ⟨h1, h2⟩
    rw [mem_filter_song_indices] at h1 h2 ⊢
    refine ⟨h1.1, ?_⟩
    rw [keepSong_mood_genre M G (songs.getD i []), Bool.and_eq_true]
    exact ⟨h1.2, h2.2⟩
  · intro h
    rw [mem_filter_song_indices] at h
    rw [keepSong_mood_genre M G (songs.getD i []), Bool.and_eq_true] at h
    exact ⟨mem_filter_song_indices.mpr ⟨h.1, h.2.1⟩,
      mem_filter_song_indices.mpr ⟨h.1, h.2.2⟩⟩

/-! ### The energy facet (C3) -/

/-- C3 counterexample: the energy comparison is neither trimmed on the
selection side nor case-insensitive.  A song with energy `"high"` is
rejected by the selection `" high"` although the two are equal after
trimming, and a song with energy `"High"` is rejected by the selection
`"high"` although the two are equal case-insensitively. -/
theorem energy_filter_ci_trim_cex :
    (filter_song_indices [[("energy", .jstr "high")]]
        (some { energy := some " high" }) = [] ∧
      pyStrip " high" = pyStrip "high") ∧
    (filter_song_indices [[("energy", .jstr "High")]]
        (some { energy := some "high" }) = [] ∧
      (pyStrip "High").data.map Char.toLower = (pyStrip "high").data.map Char.toLower) := by
  exact ⟨⟨by decide, by decide⟩, ⟨by decide, by decide⟩⟩

/-- C3 amended: with a non-empty energy selection, an item survives the
energy constraint exactly when the selected value (taken verbatim,
case-sensitively, untrimmed) is a member of the item's normalized
(trimmed, non-empty) energy tag list. -/
theorem energy_filter_membership (songs : List Song) (sel : String) (i : Nat)
    (hsel : sel ≠ "") :
    i ∈ filter_song_indices songs (some { energy := some sel }) ↔
      i < songs.length ∧ sel ∈ _as_list (jGet (songs.getD i []) "energy") := by
  rw [mem_filter_song_indices]
  have hk : keepSong { energy := some sel } (songs.getD i []) =
      (_as_list (jGet (songs.getD i []) "energy")).contains sel := by
    simp only [keepSong, matches_multi_nil, Bool.true_and, _matches_single, if_neg hsel]
  rw [hk]
  exact and_congr_right (fun _ => List.elem_iff)

theorem energy_filter_membership_witness :
    0 ∈ filter_song_indices [[("energy", .jstr "high")]]
      (some { energy := some "high" }) :=
  (energy_filter_membership [[("energy", .jstr "high")]] "high" 0 (by decide)).mpr
    (by decide)

/-! ### Search façade short-circuits and modes (C5, C2, C4) -/

/-- C5: an empty candidate set makes `semantic_search` return an empty
result for every embedding function and every vector store, so the
result does not depend on either and the embedding is never consulted. -/
theorem empty_candidates_short_circuit (songs : List Song) (vectors : List (List ℚ))
    (embed : String → List ℚ) (query : Option String) (k : Int)
    (filters : Option Filters)
    (h : filter_song_indices songs filters = []) :
    semantic_search songs vectors embed query k filters = .ok [] := by
  simp [semantic_search, h]

theorem empty_candidates_short_circuit_witness :
    semantic_search [[("mood", .jstr "sad")]] [[1]] (fun _ => [1]) (some "hello") 3
      (some { mood := ["calm"] }) = .ok [] :=
  empty_candidates_short_circuit _ _ _ _ _ _ (by decide)

/-- C2 counterexample: an item collection of 5 paired with a vector store
of 4 rows does not raise the consistency error when no query is given —
`semantic_search` filters first and only consults the vector store in
semantic mode, so it happily returns the browse results. -/
theorem count_mismatch_no_query_no_error :
    semantic_search [[], [], [], [], []] [[], [], [], []] (fun _ => []) none 5 none =
      .ok [[], [], [], [], []] := by rfl

/-- C2 amended: the consistency error is raised only in semantic mode —
when the trimmed query is non-empty and the filtered candidate set is
non-empty — and it is raised after filtering but before ranking,
whenever the item count differs from the vector row count. -/
theorem consistency_error_semantic_mode (songs : List Song) (vectors : List (List ℚ))
    (embed : String → List ℚ) (query : Option String) (k : Int)
    (filters : Option Filters)
    (hq : pyStrip (query.getD "") ≠ "")
    (hne : filter_song_indices songs filters ≠ [])
    (hmm : songs.length ≠ vectors.length) :
    semantic_search songs vectors embed query k filters =
      .error ("Mismatch: songs.json has " ++ toString songs.length ++
        " songs but song_vectors has " ++ toString vectors.length ++
        " vectors. Re-run embeddings.py after editing songs.json.") := by
  have h0 : ¬ (filter_song_indices songs filters).length = 0 := by
    simpa [List.length_eq_zero] using hne
  simp [semantic_search, h0, hq, hmm]

theorem consistency_error_semantic_mode_witness :
    semantic_search [[], []] [[]] (fun _ => []) (some "q") 5 none =
      .error "Mismatch: songs.json has 2 songs but song_vectors has 1 vectors. Re-run embeddings.py after editing songs.json." :=
  consistency_error_semantic_mode [[], []] [[]] (fun _ => []) (some "q") 5 none
    (by decide) (by decide) (by decide)

/-- C4 counterexample: in filter-only mode with `k = 0` the code
substitutes the default 5 and returns the song, while the claim's
`min(k, #candidates) = 0` would demand an empty result. -/
theorem tag_only_k_nonpos_cex :
    semantic_search [[("title", .jstr "A")]] [] (fun _ => []) none 0 none =
      .ok [[("title", .attr (.jstr "A"))]] := by rfl

/-- C4 amended: in filter-only mode (empty or absent query) with `k > 0`,
`semantic_search` returns the first `min(k, #candidates)` candidates in
corpus order, each being the item's record unchanged (no score entry is
attached); for `k ≤ 0` the default 5 is substituted first. -/
theorem tag_only_mode_take (songs : List Song) (vectors : List (List ℚ))
    (embed : String → List ℚ) (query : Option String) (k : Int)
    (filters : Option Filters)
    (hq : pyStrip (query.getD "") = "") (hk : 0 < k) :
    semantic_search songs vectors embed query k filters =
      .ok (((filter_song_indices songs filters).take
          (min k.toNat (filter_song_indices songs filters).length)).map
        (fun i => songRec (songs.getD i []))) := by
  by_cases h0 : (filter_song_indices songs filters).length = 0
  · have he : filter_song_indices songs filters = [] := List.length_eq_zero.mp h0
    simp [semantic_search, he]
  · have hk' : ¬ k ≤ 0 := by omega
    have ht : (min k ((filter_song_indices songs filters).length : Int)).toNat =
        min k.toNat (filter_song_indices songs filters).length := by omega
    simp [semantic_search, h0, hq, _ensure_top_k, hk', ht]

theorem tag_only_mode_take_witness :
    semantic_search [[("title", .jstr "A")], [("title", .jstr "B")]] [] (fun _ => [])
      none 1 none = .ok [[("title", .attr (.jstr "A"))]] :=
  tag_only_mode_take [[("title", .jstr "A")], [("title", .jstr "B")]] [] (fun _ => [])
    none 1 none (by rfl) (by decide)

/-! ### The Ranker (C6, C1) -/

theorem argsort_perm (s : List ℚ) : List.Perm (argsort s) (List.range s.length) :=
  List.perm_insertionSort _ _

theorem argsort_length (s : List ℚ) : (argsort s).length = s.length := by
  rw [(argsort_perm s).length_eq, List.length_range]

theorem argsort_nodup (s : List ℚ) : (argsort s).Nodup :=
  ((argsort_perm s).nodup_iff).mpr (List.nodup_range _)

theorem argsort_mem {s : List ℚ} {j : Nat} (h : j ∈ argsort s) : j < s.length := by
  have h2 := (argsort_perm s).mem_iff.mp h
  simpa [List.mem_range] using h2

theorem argsort_sorted (s : List ℚ) : List.Sorted (argsortLe s) (argsort s) :=
  List.sorted_insertionSort _ _

/-- C6: for a non-empty candidate set the ranker's result has length
exactly `min(k, #candidates)` when `k > 0`, is ordered by descending
score, and for `k ≤ 0` the default 5 is substituted for `k` before
truncation. -/
theorem rank_contract (vectors : List (List ℚ)) (qv : List ℚ) (c : List Nat) (k : Int)
    (hc : c ≠ []) :
    (0 < k → (rankCandidates vectors qv c k).length = min k.toNat c.length) ∧
    List.Pairwise (fun p q : Nat × ℚ => q.2 ≤ p.2) (rankCandidates vectors qv c k) ∧
    (k ≤ 0 → rankCandidates vectors qv c k = rankCandidates vectors qv c 5) := by
  refine ⟨?_, ?_, ?_⟩
  · intro hk
    have hk' : ¬ k ≤ 0 := by omega
    simp only [rankCandidates, List.length_map, List.length_take, List.length_reverse,
      argsort_length, _ensure_top_k, hk', if_false]
    omega
  · simp only [rankCandidates]
    rw [List.pairwise_map]
    refine List.Pairwise.imp ?_
      (List.Pairwise.sublist (List.take_sublist _ _)
        (List.pairwise_reverse.mpr (argsort_sorted _)))
    intro a b hab
    rcases hab with hlt | ⟨heq, _⟩
    · exact le_of_lt hlt
    · exact le_of_eq heq
  · intro hk
    have h5 : ¬ (5 : Int) ≤ 0 := by norm_num
    simp only [rankCandidates, _ensure_top_k, if_pos hk, if_neg h5]
    apply congrArg
    rw [List.take_eq_take]
    simp only [List.length_reverse, argsort_length, List.length_map]
    omega

theorem rank_contract_witness :
    (rankCandidates [[1], [2]] [1] [0, 1] 1).length = min (1 : Int).toNat 2 ∧
    List.Pairwise (fun p q : Nat × ℚ => q.2 ≤ p.2) (rankCandidates [[1], [2]] [1] [0, 1] 1) ∧
    rankCandidates [[1], [2]] [1] [0, 1] (-3) = rankCandidates [[1], [2]] [1] [0, 1] 5 := by
  have h := rank_contract [[1], [2]] [1] [0, 1] 1 (by decide)
  have h2 := rank_contract [[1], [2]] [1] [0, 1] (-3) (by decide)
  exact ⟨h.1 (by decide), h.2.1, h2.2.2 (by decide)⟩

/-- C1 counterexample: two candidates whose similarity scores are both 0
(equal); `semantic_search` lists the candidate with the LARGER corpus
index (song B at index 1) first, contradicting the claimed ascending
tie-break.  The second conjunct exhibits that the two records indeed
carry equal scores. -/
theorem semantic_search_tie_larger_index_first :
    semantic_search [[("title", .jstr "A")], [("title", .jstr "B")]] [[], []]
        (fun _ => []) (some "q") 5 none =
      .ok [[("score", .num 0), ("title", .attr (.jstr "B"))],
           [("score", .num 0), ("title", .attr (.jstr "A"))]] ∧
    rGet [("score", .num 0), ("title", .attr (.jstr "B"))] "score" =
      rGet [("score", .num 0), ("title", .attr (.jstr "A"))] "score" := by
  exact ⟨rfl, rfl⟩

/-- C1 amended: in semantic mode the ranking is by score descending with
ties broken by original corpus index DESCENDING: reversing the stable
ascending argsort puts equal-score candidates in reverse position order,
and the candidate list is ascending in corpus index. -/
theorem rank_tiebreak_index_desc (vectors : List (List ℚ)) (qv : List ℚ)
    (c : List Nat) (k : Int) (hc : List.Pairwise (· < ·) c) :
    List.Pairwise (fun p q : Nat × ℚ => q.2 < p.2 ∨ (p.2 = q.2 ∧ q.1 < p.1))
      (rankCandidates vectors qv c k) := by
  simp only [rankCandidates]
  rw [List.pairwise_map]
  have hflip : List.Pairwise
      (fun a b => argsortLe (c.map fun i => dot (vectors.getD i []) qv) b a)
      (((argsort (c.map fun i => dot (vectors.getD i []) qv)).reverse).take
        (_ensure_top_k k c.length).toNat) :=
    List.Pairwise.sublist (List.take_sublist _ _)
      (List.pairwise_reverse.mpr (argsort_sorted _))
  have hnd : (((argsort (c.map fun i => dot (vectors.getD i []) qv)).reverse).take
      (_ensure_top_k k c.length).toNat).Nodup :=
    List.Nodup.sublist (List.take_sublist _ _)
      (List.nodup_reverse.mpr (argsort_nodup _))
  have hmem : ∀ j ∈ ((argsort (c.map fun i => dot (vectors.getD i []) qv)).reverse).take
      (_ensure_top_k k c.length).toNat, j < c.length := by
    intro j hj
    have h1 : j ∈ (argsort (c.map fun i => dot (vectors.getD i []) qv)).reverse :=
      (List.take_sublist _ _).subset hj
    have h2 := argsort_mem (List.mem_reverse.mp h1)
    simpa [List.length_map] using h2
  refine (hflip.and hnd).imp_of_mem ?_
  intro a b ha hb hab
  obtain ⟨hle, hne⟩ := hab
  rcases hle with hlt | ⟨heq, hba⟩
  · exact Or.inl hlt
  · refine Or.inr ⟨heq.symm, ?_⟩
    have hblt : b < a := lt_of_le_of_ne hba hne.symm
    have hb' : b < c.length := hmem b hb
    have ha' : a < c.length := hmem a ha
    rw [List.getD_eq_getElem _ _ hb', List.getD_eq_getElem _ _ ha']
    exact List.pairwise_iff_getElem.mp hc b a hb' ha' hblt

theorem rank_tiebreak_index_desc_witness :
    List.Pairwise (fun p q : Nat × ℚ => q.2 < p.2 ∨ (p.2 = q.2 ∧ q.1 < p.1))
      (rankCandidates [[], []] [] [0, 1] 5) :=
  rank_tiebreak_index_desc [[], []] [] [0, 1] 5 (by decide)

/-! ### Result-record construction (C10) -/

theorem rGet_cons_pos {a : String × RVal} {rest : ResultRec} {k : String}
    (h : (a.1 == k) = true) : rGet (a :: rest) k = some a.2 := by
  simp [rGet, List.find?, h]

theorem rGet_cons_neg {a : String × RVal} {rest : ResultRec} {k : String}
    (h : (a.1 == k) = false) : rGet (a :: rest) k = rGet rest k := by
  simp [rGet, List.find?, h]

theorem find_replace (k : String) (v : RVal) :
    ∀ d : ResultRec, d.any (fun p => p.1 == k) = true →
      rGet (d.map (fun p => if p.1 == k then (k, v) else p)) k = some v
  | [], h => by simp at h
  | a :: rest, h => by
    by_cases hk : (a.1 == k) = true
    · rw [List.map_cons, if_pos hk]
      exact rGet_cons_pos (by simp)
    · have hrest : rest.any (fun p => p.1 == k) = true := by
        rcases List.any_eq_true.mp h with ⟨x, hx, hpx⟩
        rcases List.mem_cons.mp hx with rfl | hx2
        · exact absurd hpx hk
        · exact List.any_eq_true.mpr ⟨x, hx2, hpx⟩
      rw [List.map_cons, if_neg hk, rGet_cons_neg (by simpa using hk)]
      exact find_replace k v rest hrest

theorem find_append_of_not_any (k : String) (v : RVal) :
    ∀ d : ResultRec, d.any (fun p => p.1 == k) = false →
      rGet (d ++ [(k, v)]) k = some v
  | [], _ => rGet_cons_pos (by simp)
  | a :: rest, h => by
    simp only [List.any_cons, Bool.or_eq_false_iff] at h
    rw [List.cons_append, rGet_cons_neg h.1]
    exact find_append_of_not_any k v rest h.2

theorem rGet_dictInsert_self (d : ResultRec) (k : String) (v : RVal) :
    rGet (dictInsert d k v) k = some v := by
  unfold dictInsert
  by_cases h : d.any (fun p => p.1 == k)
  · rw [if_pos h]
    exact find_replace k v d h
  · rw [if_neg h]
    exact find_append_of_not_any k v d (by rwa [Bool.not_eq_true] at h)

theorem rGet_map_replace (k : String) (v : RVal) (k2 : String) (h : k2 ≠ k) :
    ∀ d : ResultRec,
      rGet (d.map (fun p => if p.1 == k then (k, v) else p)) k2 = rGet d k2
  | [] => rfl
  | a :: rest => by
    by_cases hk : (a.1 == k) = true
    · have ha1 : a.1 = k := by simpa using hk
      have hne : (k == k2) = false := beq_eq_false_iff_ne.mpr (Ne.symm h)
      rw [List.map_cons, if_pos hk, rGet_cons_neg hne,
        rGet_cons_neg (show (a.1 == k2) = false by rw [ha1]; exact hne)]
      exact rGet_map_replace k v k2 h rest
    · rw [List.map_cons, if_neg hk]
      by_cases h2 : (a.1 == k2) = true
      · rw [rGet_cons_pos h2, rGet_cons_pos h2]
      · rw [rGet_cons_neg (by simpa using h2), rGet_cons_neg (by simpa using h2)]
        exact rGet_map_replace k v k2 h rest

theorem rGet_append_single_ne (k : String) (v : RVal) (k2 : String) (h : k2 ≠ k) :
    ∀ d : ResultRec, rGet (d ++ [(k, v)]) k2 = rGet d k2
  | [] => by
    rw [List.nil_append, rGet_cons_neg (beq_eq_false_iff_ne.mpr (Ne.symm h))]
  | a :: rest => by
    by_cases h2 : (a.1 == k2) = true
    · rw [List.cons_append, rGet_cons_pos h2, rGet_cons_pos h2]
    · rw [List.cons_append, rGet_cons_neg (by simpa using h2),
        rGet_cons_neg (by simpa using h2)]
      exact rGet_append_single_ne k v k2 h rest

theorem rGet_dictInsert_ne (d : ResultRec) (k : String) (v : RVal) (k2 : String)
    (h : k2 ≠ k) : rGet (dictInsert d k v) k2 = rGet d k2 := by
  unfold dictInsert
  by_cases ha : d.any (fun p => p.1 == k)
  · rw [if_pos ha]
    exact rGet_map_replace k v k2 h d
  · rw [if_neg ha]
    exact rGet_append_single_ne k v k2 h d

theorem rGet_fold_not_mem (key : String) :
    ∀ (attrs : Song) (acc : ResultRec), (∀ p ∈ attrs, p.1 ≠ key) →
      rGet (attrs.foldl (fun d p => dictInsert d p.1 (.attr p.2)) acc) key = rGet acc key
  | [], _, _ => rfl
  | p :: rest, acc, h => by
    rw [List.foldl_cons,
      rGet_fold_not_mem key rest _ (fun q hq => h q (List.mem_cons_of_mem _ hq))]
    exact rGet_dictInsert_ne acc p.1 (.attr p.2) key
      (Ne.symm (h p (List.mem_cons_self _ _)))

theorem rGet_fold_dict (key : String) :
    ∀ (attrs : Song) (acc : ResultRec), (attrs.map Prod.fst).Nodup →
      rGet (attrs.foldl (fun d p => dictInsert d p.1 (.attr p.2)) acc) key =
        (match jGet attrs key with
         | some v => some (.attr v)
         | none => rGet acc key)
  | [], acc, _ => rfl
  | p :: rest, acc, hnd => by
    rw [List.foldl_cons]
    have hnd' : (rest.map Prod.fst).Nodup := by
      rw [List.map_cons] at hnd
      exact hnd.of_cons
    by_cases hk : p.1 = key
    · subst hk
      have hrest : ∀ q ∈ rest, q.1 ≠ p.1 := by
        intro q hq hqk
        rw [List.map_cons] at hnd
        have hm : p.1 ∈ rest.map Prod.fst := by
          rw [← hqk]
          exact List.mem_map_of_mem _ hq
        exact (List.nodup_cons.mp hnd).1 hm
      rw [rGet_fold_not_mem p.1 rest _ hrest, rGet_dictInsert_self]
      have hj : jGet (p :: rest) p.1 = some p.2 := by
        simp [jGet, List.find?]
      rw [hj]
    · have hj : jGet (p :: rest) key = jGet rest key := by
        simp [jGet, List.find?, beq_eq_false_iff_ne.mpr hk]
      rw [hj, rGet_fold_dict key rest _ hnd']
      cases hg : jGet rest key with
      | some v => rfl
      | none => exact rGet_dictInsert_ne acc p.1 (.attr p.2) key (Ne.symm hk)

/-- C10: a semantic-mode result record is built as
`{"score": computed, **song}`, so the song's own attributes take
precedence: an item that itself has a `score` key keeps its stored value
in the returned record, and an item without one gets the computed
similarity. -/
theorem result_score_precedence (score : ℚ) (attrs : Song)
    (hnd : (attrs.map Prod.fst).Nodup) :
    (∀ v, jGet attrs "score" = some v →
      rGet (mkResult score attrs) "score" = some (.attr v)) ∧
    (jGet attrs "score" = none →
      rGet (mkResult score attrs) "score" = some (.num score)) := by
  have h := rGet_fold_dict "score" attrs [("score", .num score)] hnd
  constructor
  · intro v hv
    rw [mkResult, h, hv]
  · intro hv
    rw [mkResult, h, hv]
    rfl

theorem result_score_precedence_witness :
    rGet (mkResult 1 [("score", .jstr "stored"), ("title", .jstr "T")]) "score" =
      some (.attr (.jstr "stored")) ∧
    rGet (mkResult 1 [("title", .jstr "T")]) "score" = some (.num 1) := by
  have h1 := result_score_precedence 1 [("score", .jstr "stored"), ("title", .jstr "T")]
    (by decide)
  have h2 := result_score_precedence 1 [("title", .jstr "T")] (by decide)
  exact ⟨h1.1 (.jstr "stored") (by decide), h2.2 (by decide)⟩

/-! ### Agreement of the two filter implementations (C9) -/

/-- Recognizer for a string-valued JSON field (well-formed single-valued
energy data). -/
def isStr : JVal → Bool
  | .jstr _ => true
  | _ => false

theorem mem_as_list_ne_empty {v : Option JVal} {t : String}
    (h : t ∈ _as_list v) : t ≠ "" := by
  match v with
  | none => simp [_as_list] at h
  | some .jnull => simp [_as_list] at h
  | some (.jstr s) =>
    by_cases hs : pyStrip s = ""
    · simp [_as_list, hs] at h
    · simp [_as_list, hs] at h
      rw [h]
      exact hs
  | some (.jlist xs) =>
    simp [_as_list, List.mem_filter] at h
    exact h.2

theorem matches_any_eq_multi (v : Option JVal) (sel : List String)
    (h : ∀ x ∈ sel, pyStrip x = x) :
    _matches_any (_as_list v) sel = _matches_multi_select v sel := by
  unfold _matches_any _matches_multi_select
  by_cases he : sel.isEmpty
  · simp [he]
  · simp only [he, Bool.false_eq_true, if_false]
    have hmap : sel.map pyStrip = sel := by
      rw [List.map_congr_left h]
      exact List.map_id' sel
    rw [hmap]
    apply Bool.eq_iff_iff.mpr
    simp only [List.any_eq_true, List.elem_iff, List.mem_filter, decide_eq_true_eq]
    constructor
    · rintro ⟨x, hx, hmem⟩
      exact ⟨x, hmem, hx, mem_as_list_ne_empty hmem⟩
    · rintro ⟨t, ht, hts, _⟩
      exact ⟨t, hts, ht⟩

theorem energy_clause_eq (x : String) (hxe : x ≠ "") :
    ∀ (ov : Option JVal), Option.all isStr ov = true →
      ((pyStrip (match ov with | none => "" | some v => pyStr v) == x) =
        (_as_list ov).contains x)
  | none, _ => by
    have h1 : (pyStrip "" == x) = false :=
      beq_eq_false_iff_ne.mpr (fun h => hxe (by rw [← h]; rfl))
    rw [show (match (none : Option JVal) with
          | none => "" | some v => pyStr v) = "" from rfl, h1]
    rfl
  | some v, hstr => by
    match v, hstr with
    | .jstr t, _ =>
      show (pyStrip t == x) = ((_as_list (some (.jstr t))).contains x)
      by_cases hts : pyStrip t = ""
      · rw [hts]
        have h1 : (("" : String) == x) = false := beq_eq_false_iff_ne.mpr (Ne.symm hxe)
        rw [h1]
        simp [_as_list, hts]
      · simp only [_as_list, if_neg hts]
        apply Bool.eq_iff_iff.mpr
        simp only [beq_iff_eq, List.elem_iff, List.mem_singleton]
        exact eq_comm

theorem energy_facets_eq (e : Option String) (s : Song)
    (he : ∀ x, e = some x → pyStrip x = x)
    (hs : Option.all isStr (jGet s "energy") = true) :
    (pyStrip (e.getD "") == "" ||
      pyStrip (match jGet s "energy" with | none => "" | some v => pyStr v) ==
        pyStrip (e.getD "")) =
    _matches_single (jGet s "energy") e := by
  cases e with
  | none => rfl
  | some x =>
    have hx : pyStrip x = x := he x rfl
    rw [show (Option.some x).getD "" = x from rfl, hx]
    by_cases hxe : x = ""
    · subst hxe; rfl
    · have h1 : (x == "") = false := beq_eq_false_iff_ne.mpr hxe
      rw [h1, Bool.false_or, energy_clause_eq x hxe (jGet s "energy") hs]
      simp [_matches_single, hxe]

/-- C9: on well-formed data — every item's energy field, when present, a
single string — and selections without surrounding whitespace, the two
filter implementations agree: `filter_songs` (app/facets.py) returns
exactly the songs at the positions that `filter_song_indices`
(app/similarity.py) returns for the equivalent filter spec. -/
theorem filter_impls_agree (songs : List Song)
    (mood activity genre : Option (List String)) (energy : Option String)
    (hm : ∀ x ∈ mood.getD [], pyStrip x = x)
    (ha : ∀ x ∈ activity.getD [], pyStrip x = x)
    (hg : ∀ x ∈ genre.getD [], pyStrip x = x)
    (he : ∀ x, energy = some x → pyStrip x = x)
    (hs : ∀ s ∈ songs, Option.all isStr (jGet s "energy") = true) :
    filter_songs songs mood activity energy genre =
      (filter_song_indices songs
          (some ⟨mood.getD [], activity.getD [], genre.getD [], energy⟩)).map
        (fun i => songs.getD i []) := by
  simp only [filter_songs, filter_song_indices]
  rw [map_getD_filter_range]
  refine List.filter_congr ?_
  intro s hsmem
  rw [matches_any_eq_multi _ _ hm, matches_any_eq_multi _ _ ha,
    matches_any_eq_multi _ _ hg, energy_facets_eq energy s he (hs s hsmem)]
  rfl

theorem filter_impls_agree_witness :
    filter_songs
        [[("mood", JVal.jlist ["calm", "warm"]), ("energy", JVal.jstr "low")],
         [("mood", JVal.jstr "sad"), ("energy", JVal.jstr "high")]]
        (some ["calm"]) none (some "low") none =
      (filter_song_indices
          [[("mood", JVal.jlist ["calm", "warm"]), ("energy", JVal.jstr "low")],
           [("mood", JVal.jstr "sad"), ("energy", JVal.jstr "high")]]
          (some ⟨["calm"], [], [], some "low"⟩)).map
        (fun i => ([[("mood", JVal.jlist ["calm", "warm"]), ("energy", JVal.jstr "low")],
           [("mood", JVal.jstr "sad"), ("energy", JVal.jstr "high")]] : List Song).getD i []) :=
  filter_impls_agree _ _ _ _ _ (by decide) (by decide) (by decide)
    (by intro x hx; cases hx; rfl) (by decide)
